import Mathlib

/-!
Shallow embedding of src/lilcom/lpc_stream.h (classes LpcPrediction,
LpcStream, ReverseLpcStream) and a verification of the specification's
claims about them.

The external collaborators declared in headers that are not part of the
sources (int_stream.h and lpc_math.h) are modelled from the specification:
  - the predictor-coefficient estimator (int_math::ToeplitzLpcEstimator's
    AcceptBlock / GetLpcCoeffs) and the prediction kernel
    (int_math::compute_lpc_prediction) are modelled as pure deterministic
    functions bundled in a `Collab` record;
  - the residual coder (TruncatedIntStream::WriteLimited and
    ReverseTruncatedIntStream::Read) is modelled by a truncation function
    `trunc` together with a code stream carrying exactly the sequence of
    committed residuals, which the reverse side reproduces in order.

C++ machine integers are modelled by `Int`; `int16_t` range checks use
explicit wrapping (`int16OfInt`) where the source performs a cast.
-/

namespace Lilcom

/-- Configuration of the LPC core: predictor order and block size
(int_math::LpcConfig, as used by lpc_stream.h through Config().lpc_order
and Config().block_size). -/
structure LpcConfig where
  lpc_order : Nat
  block_size : Nat
deriving DecidableEq

/-- Modelled from the spec: the two external collaborators of the core that
are not under the sources, treated as deterministic pure functions.
`predict` is int_math::compute_lpc_prediction: from the current coefficient
vector and the `lpc_order` most recent reconstructed samples (ending just
before the current time, oldest first) it returns the predicted value.
`estimate` is ToeplitzLpcEstimator::AcceptBlock followed by GetLpcCoeffs:
from the context samples including left padding (size lpc_order +
block_size) and the residual buffer (size block_size) it returns the new
coefficient vector. -/
structure Collab where
  predict : List Int → List Int → Int
  estimate : List Int → List Int → List Int

/-- State of class LpcPrediction: the sample counter t_, the padded ring
buffer buffer_storage_ (of length lpc_order + block_size; index lpc_order
is where buffer_start_ points), the residual block residual_, and the
coefficient vector held by the inherited ToeplitzLpcEstimator. -/
structure LpcPrediction where
  t : Nat
  buffer : List Int
  residual : List Int
  coeffs : List Int
deriving DecidableEq

/-- Constructor LpcPrediction::LpcPrediction: t_ = 0, buffer_storage_ is
lpc_order + block_size zeros, residual_ is block_size zeros.  The initial
coefficient vector of the estimator is all zeros (modelled from the spec:
the concrete scenario in the spec names "the all-zero initial vector used
for block 1"). -/
def LpcPrediction.init (cfg : LpcConfig) : LpcPrediction :=
  { t := 0
    buffer := List.replicate (cfg.lpc_order + cfg.block_size) 0
    residual := List.replicate cfg.block_size 0
    coeffs := List.replicate cfg.lpc_order 0 }

/-- LpcPrediction::GetPrediction: the prediction at the current time is
computed from the coefficient vector and the lpc_order samples that
precede position buffer_start_ + t_ mod block_size, i.e. storage indices
(t_ mod block_size) .. (t_ mod block_size + lpc_order - 1). -/
def GetPrediction (c : Collab) (cfg : LpcConfig) (s : LpcPrediction) : Int :=
  c.predict s.coeffs ((s.buffer.drop (s.t % cfg.block_size)).take cfg.lpc_order)

/-- Sequential copy loop of AdvanceLpcState: for j = 0 .. n-1 set
buf[j] := buf[bs + j], reading from the partially updated buffer exactly
as the C++ loop over i in [-lpc_order, 0) writing buffer_start_[i] =
buffer_start_[block_size + i] does. -/
def copyLoop (bs n : Nat) (buf : List Int) : List Int :=
  (List.range n).foldl (fun b j => b.set j (b.getD (bs + j) 0)) buf

/-- Copy of the trailing lpc_order samples of the completed block into the
left-context slots, as performed at a block boundary. -/
def copyContext (cfg : LpcConfig) (buf : List Int) : List Int :=
  copyLoop cfg.block_size cfg.lpc_order buf

/-- LpcPrediction::AdvanceLpcState: at a block boundary (t_ mod block_size
= 0 and t_ nonzero) first copy the prediction context to the start of the
buffer, then let the estimator accept the completed block (the post-copy
context buffer together with the residual block) producing the new
coefficient vector; in every case store value and residual at slot
t_ mod block_size and increment t_. -/
def AdvanceLpcState (c : Collab) (cfg : LpcConfig) (value residual : Int)
    (s : LpcPrediction) : LpcPrediction :=
  let t_mod := s.t % cfg.block_size
  if t_mod = 0 ∧ s.t ≠ 0 then
    let buf := copyContext cfg s.buffer
    { t := s.t + 1
      buffer := buf.set (cfg.lpc_order + t_mod) value
      residual := s.residual.set t_mod residual
      coeffs := c.estimate buf s.residual }
  else
    { t := s.t + 1
      buffer := s.buffer.set (cfg.lpc_order + t_mod) value
      residual := s.residual.set (s.t % cfg.block_size) residual
      coeffs := s.coeffs }

/-- Debug assertion at the top of AdvanceLpcState:
assert(t_mod > 2 || residual == value - (int32_t)GetPrediction()). -/
def advanceAssertOK (c : Collab) (cfg : LpcConfig) (s : LpcPrediction)
    (value residual : Int) : Prop :=
  2 < s.t % cfg.block_size ∨ residual = value - GetPrediction c cfg s

instance (c : Collab) (cfg : LpcConfig) (s : LpcPrediction) (value residual : Int) :
    Decidable (advanceAssertOK c cfg s value residual) :=
  inferInstanceAs (Decidable (2 < s.t % cfg.block_size ∨ residual = value - GetPrediction c cfg s))

/-- Wrapping conversion of an integer to the int16_t range, the meaning of
the C++ cast static_cast(int16_t) in ReverseLpcStream::Read. -/
def int16OfInt (n : Int) : Int :=
  (n + 32768) % 65536 - 32768

/-- Membership in the representable range of int16_t. -/
def inInt16 (n : Int) : Prop :=
  -32768 ≤ n ∧ n ≤ 32767

instance (n : Int) : Decidable (inInt16 n) :=
  inferInstanceAs (Decidable (-32768 ≤ n ∧ n ≤ 32767))

/-- Modelled from the spec: TruncatedIntStream::WriteLimited (int_stream.h
is not under the sources).  Given the residual and the prediction as side
information, the coder commits a possibly truncated residual
`trunc residual prediction` and reports the committed
(decompressed_value, decompressed_residual) pair, where the committed
value is prediction + committed residual — the value a correct decoder
will later recover.  The coder contract that the committed value fits the
sample's native 16-bit width is taken as a hypothesis where a claim needs
it. -/
def writeLimited (trunc : Int → Int → Int) (residual prediction : Int) : Int × Int :=
  (prediction + trunc residual prediction, trunc residual prediction)

/-- Modelled from the spec: the lossless configuration of the residual
coder, which never truncates. -/
def noTruncation (residual : Int) (_prediction : Int) : Int := residual

/-- A lossy residual coder used as a concrete instance: it truncates the
residual exactly as far as needed for the committed value to fit int16. -/
def clampCoder (residual prediction : Int) : Int :=
  let sum := prediction + residual
  (if sum < -32768 then -32768 else if 32767 < sum then 32767 else sum) - prediction

/-- State of class LpcStream: the prediction state together with the code
emitted so far, modelled (from the spec) as the sequence of committed
residuals, which the byte-level coder encodes and the reverse side
reproduces exactly. -/
structure LpcStream where
  pred : LpcPrediction
  code : List Int
deriving DecidableEq

/-- LpcStream::Write: compute the prediction, form the residual
value - prediction in wide signed arithmetic, commit it through the
residual coder obtaining the committed (value, residual) pair, advance the
LPC state with the committed pair, and return the committed value
(the decompressed_value_out output). -/
def LpcStream.Write (trunc : Int → Int → Int) (c : Collab) (cfg : LpcConfig)
    (st : LpcStream) (value : Int) : LpcStream × Int :=
  let prediction := GetPrediction c cfg st.pred
  let residual := value - prediction
  let wl := writeLimited trunc residual prediction
  ({ pred := AdvanceLpcState c cfg wl.1 wl.2 st.pred
     code := st.code ++ [wl.2] }, wl.1)

/-- State of class ReverseLpcStream: the prediction state together with
the remaining code, modelled as the not-yet-consumed committed residuals. -/
structure ReverseLpcStream where
  pred : LpcPrediction
  code : List Int
deriving DecidableEq

/-- ReverseLpcStream::Read: ask the reverse coder for the next residual
(failing with end-of-stream if the code is exhausted), compute
next_value = prediction + residual, fail if next_value does not equal its
int16_t cast (possible corruption; the residual has already been consumed
from the code), otherwise advance the LPC state with
(next_value, residual) and return next_value.  The first component models
the bool return together with the output parameter: some value on
success, none when the function returns false without writing *value. -/
def ReverseLpcStream.Read (c : Collab) (cfg : LpcConfig) (d : ReverseLpcStream) :
    Option Int × ReverseLpcStream :=
  match d.code with
  | [] => (none, d)
  | residual :: rest =>
    let prediction := GetPrediction c cfg d.pred
    let next_value := prediction + residual
    if next_value = int16OfInt next_value then
      (some next_value, ⟨AdvanceLpcState c cfg next_value residual d.pred, rest⟩)
    else
      (none, ⟨d.pred, rest⟩)

/-- Reading n consecutive samples through ReverseLpcStream::Read,
collecting the values; fails if any single read fails. -/
def readN (c : Collab) (cfg : LpcConfig) :
    Nat → ReverseLpcStream → Option (List Int × ReverseLpcStream)
  | 0, d => some ([], d)
  | n + 1, d =>
    let rd := ReverseLpcStream.Read c cfg d
    match rd.1 with
    | some v => (readN c cfg n rd.2).map (fun q => (v :: q.1, q.2))
    | none => none

/-- Writing a whole sequence of samples through LpcStream::Write. -/
def writeAll (trunc : Int → Int → Int) (c : Collab) (cfg : LpcConfig) :
    LpcStream → List Int → LpcStream
  | st, [] => st
  | st, v :: vs => writeAll trunc c cfg (LpcStream.Write trunc c cfg st v).1 vs

/-- The sequence of reconstructed values returned by LpcStream::Write over
a whole input sequence. -/
def writeOutputs (trunc : Int → Int → Int) (c : Collab) (cfg : LpcConfig) :
    LpcStream → List Int → List Int
  | _, [] => []
  | st, v :: vs =>
    (LpcStream.Write trunc c cfg st v).2 ::
      writeOutputs trunc c cfg (LpcStream.Write trunc c cfg st v).1 vs

/-- Successor prediction state after one LpcStream::Write of `v` on
prediction state `s` (the pred component of the written stream). -/
def nextPred (trunc : Int → Int → Int) (c : Collab) (cfg : LpcConfig)
    (s : LpcPrediction) (v : Int) : LpcPrediction :=
  AdvanceLpcState c cfg
    (GetPrediction c cfg s + trunc (v - GetPrediction c cfg s) (GetPrediction c cfg s))
    (trunc (v - GetPrediction c cfg s) (GetPrediction c cfg s)) s

/-- The committed residual emitted by one LpcStream::Write of `v` on
prediction state `s`. -/
def codeVal (trunc : Int → Int → Int) (c : Collab) (cfg : LpcConfig)
    (s : LpcPrediction) (v : Int) : Int :=
  trunc (v - GetPrediction c cfg s) (GetPrediction c cfg s)

/-- The reconstructed value returned by one LpcStream::Write of `v` on
prediction state `s`. -/
def outVal (trunc : Int → Int → Int) (c : Collab) (cfg : LpcConfig)
    (s : LpcPrediction) (v : Int) : Int :=
  GetPrediction c cfg s + trunc (v - GetPrediction c cfg s) (GetPrediction c cfg s)

/-- Prediction state after encoding a whole sequence. -/
def encPred (trunc : Int → Int → Int) (c : Collab) (cfg : LpcConfig) :
    LpcPrediction → List Int → LpcPrediction
  | s, [] => s
  | s, v :: vs => encPred trunc c cfg (nextPred trunc c cfg s v) vs

/-- Committed residuals emitted while encoding a whole sequence. -/
def encCodes (trunc : Int → Int → Int) (c : Collab) (cfg : LpcConfig) :
    LpcPrediction → List Int → List Int
  | _, [] => []
  | s, v :: vs => codeVal trunc c cfg s v :: encCodes trunc c cfg (nextPred trunc c cfg s v) vs

/-- Reconstructed values produced while encoding a whole sequence. -/
def encOuts (trunc : Int → Int → Int) (c : Collab) (cfg : LpcConfig) :
    LpcPrediction → List Int → List Int
  | _, [] => []
  | s, v :: vs => outVal trunc c cfg s v :: encOuts trunc c cfg (nextPred trunc c cfg s v) vs

/-- A concrete collaborator instance for witnesses: prediction is the dot
product of the coefficients with the history window, estimation returns
the constant vector [7]. -/
def constCollab : Collab :=
  { predict := fun coeffs window => (List.zipWith (fun a b => a * b) coeffs window).sum
    estimate := fun _ _ => [7] }

/-- A concrete collaborator instance for witnesses: prediction is the dot
product of the coefficients with the history window, estimation returns a
vector built from the first context sample and first residual. -/
def dotCollab : Collab :=
  { predict := fun coeffs window => (List.zipWith (fun a b => a * b) coeffs window).sum
    estimate := fun ctx res => [ctx.getD 0 0 + res.getD 0 0] }

end Lilcom

namespace Lilcom

theorem advance_t (c : Collab) (cfg : LpcConfig) (v r : Int) (s : LpcPrediction) :
    (AdvanceLpcState c cfg v r s).t = s.t + 1 := by
  simp only [AdvanceLpcState]
  split <;> rfl

theorem advance_coeffs (c : Collab) (cfg : LpcConfig) (v r : Int) (s : LpcPrediction) :
    (AdvanceLpcState c cfg v r s).coeffs =
      if s.t % cfg.block_size = 0 ∧ s.t ≠ 0 then
        c.estimate (copyContext cfg s.buffer) s.residual
      else s.coeffs := by
  simp only [AdvanceLpcState]
  by_cases h : s.t % cfg.block_size = 0 ∧ s.t ≠ 0
  · rw [if_pos h, if_pos h]
  · rw [if_neg h, if_neg h]

theorem eq_int16OfInt_iff (n : Int) : n = int16OfInt n ↔ inInt16 n := by
  unfold int16OfInt inInt16
  omega

theorem copyLoop_succ (bs n : Nat) (buf : List Int) :
    copyLoop bs (n + 1) buf
      = (copyLoop bs n buf).set n ((copyLoop bs n buf).getD (bs + n) 0) := by
  unfold copyLoop
  rw [List.range_succ, List.foldl_append]
  rfl

theorem copyLoop_length (bs n : Nat) (buf : List Int) :
    (copyLoop bs n buf).length = buf.length := by
  induction n with
  | zero => rfl
  | succ k ih => rw [copyLoop_succ, List.length_set, ih]

theorem copyLoop_getD (bs : Nat) (buf : List Int) :
    ∀ n : Nat, n ≤ buf.length → ∀ i : Nat,
    (copyLoop bs n buf).getD i 0
      = if i < n then buf.getD (bs + i) 0 else buf.getD i 0 := by
  intro n
  induction n with
  | zero => intro _ i; simp [copyLoop]
  | succ k ih =>
    intro hn i
    have hk : k ≤ buf.length := by omega
    have hgd : (copyLoop bs k buf).getD (bs + k) 0 = buf.getD (bs + k) 0 := by
      rw [ih hk (bs + k)]
      have hnot : ¬ (bs + k < k) := by omega
      simp [hnot]
    rw [copyLoop_succ, List.getD_eq_getElem?_getD, List.getElem?_set]
    by_cases hik : k = i
    · subst hik
      have hlt : k < (copyLoop bs k buf).length := by rw [copyLoop_length]; omega
      have hk1 : k < k + 1 := by omega
      rw [if_pos rfl, if_pos hlt, if_pos hk1]
      simp only [Option.getD_some]
      exact hgd
    · rw [if_neg hik, ← List.getD_eq_getElem?_getD, ih hk i]
      by_cases h2 : i < k
      · have h3 : i < k + 1 := by omega
        rw [if_pos h2, if_pos h3]
      · have h3 : ¬ i < k + 1 := by omega
        rw [if_neg h2, if_neg h3]

theorem copyContext_getD_lt (cfg : LpcConfig) (buf : List Int)
    (hlen : cfg.lpc_order ≤ buf.length) (j : Nat) (hj : j < cfg.lpc_order) :
    (copyContext cfg buf).getD j 0 = buf.getD (cfg.block_size + j) 0 := by
  unfold copyContext
  rw [copyLoop_getD cfg.block_size buf cfg.lpc_order hlen j, if_pos hj]

theorem copyContext_getD_ge (cfg : LpcConfig) (buf : List Int)
    (hlen : cfg.lpc_order ≤ buf.length) (j : Nat) (hj : cfg.lpc_order ≤ j) :
    (copyContext cfg buf).getD j 0 = buf.getD j 0 := by
  unfold copyContext
  rw [copyLoop_getD cfg.block_size buf cfg.lpc_order hlen j, if_neg (by omega)]

theorem copyContext_length (cfg : LpcConfig) (buf : List Int) :
    (copyContext cfg buf).length = buf.length := copyLoop_length _ _ _

theorem Read_nil (c : Collab) (cfg : LpcConfig) (p : LpcPrediction) :
    ReverseLpcStream.Read c cfg ⟨p, []⟩ = (none, ⟨p, []⟩) := rfl

theorem Read_cons (c : Collab) (cfg : LpcConfig) (p : LpcPrediction) (r : Int)
    (rest : List Int) :
    ReverseLpcStream.Read c cfg ⟨p, r :: rest⟩ =
      if GetPrediction c cfg p + r = int16OfInt (GetPrediction c cfg p + r) then
        (some (GetPrediction c cfg p + r),
         ⟨AdvanceLpcState c cfg (GetPrediction c cfg p + r) r p, rest⟩)
      else (none, ⟨p, rest⟩) := rfl

theorem writeAll_eq (trunc : Int → Int → Int) (c : Collab) (cfg : LpcConfig)
    (vs : List Int) : ∀ st : LpcStream,
    writeAll trunc c cfg st vs
      = ⟨encPred trunc c cfg st.pred vs, st.code ++ encCodes trunc c cfg st.pred vs⟩ := by
  induction vs with
  | nil => intro st; simp [writeAll, encPred, encCodes]
  | cons v vs ih =>
    intro st
    show writeAll trunc c cfg (LpcStream.Write trunc c cfg st v).1 vs = _
    rw [ih]
    simp [LpcStream.Write, writeLimited, encPred, encCodes, nextPred, codeVal]

theorem writeOutputs_eq (trunc : Int → Int → Int) (c : Collab) (cfg : LpcConfig)
    (vs : List Int) : ∀ st : LpcStream,
    writeOutputs trunc c cfg st vs = encOuts trunc c cfg st.pred vs := by
  induction vs with
  | nil => intro st; simp [writeOutputs, encOuts]
  | cons v vs ih =>
    intro st
    show (LpcStream.Write trunc c cfg st v).2
        :: writeOutputs trunc c cfg (LpcStream.Write trunc c cfg st v).1 vs = _
    rw [ih]
    simp [LpcStream.Write, writeLimited, encOuts, nextPred, outVal]

theorem encPred_t (trunc : Int → Int → Int) (c : Collab) (cfg : LpcConfig)
    (vs : List Int) : ∀ s : LpcPrediction,
    (encPred trunc c cfg s vs).t = s.t + vs.length := by
  induction vs with
  | nil => intro s; simp [encPred]
  | cons v vs ih =>
    intro s
    show (encPred trunc c cfg (nextPred trunc c cfg s v) vs).t = _
    rw [ih]
    unfold nextPred
    rw [advance_t]
    simp
    omega

theorem encPred_append (trunc : Int → Int → Int) (c : Collab) (cfg : LpcConfig)
    (xs ys : List Int) : ∀ s : LpcPrediction,
    encPred trunc c cfg s (xs ++ ys)
      = encPred trunc c cfg (encPred trunc c cfg s xs) ys := by
  induction xs with
  | nil => intro s; simp [encPred]
  | cons x xs ih =>
    intro s
    show encPred trunc c cfg (nextPred trunc c cfg s x) (xs ++ ys) = _
    rw [ih]
    rfl

theorem encCodes_append (trunc : Int → Int → Int) (c : Collab) (cfg : LpcConfig)
    (xs ys : List Int) : ∀ s : LpcPrediction,
    encCodes trunc c cfg s (xs ++ ys)
      = encCodes trunc c cfg s xs ++ encCodes trunc c cfg (encPred trunc c cfg s xs) ys := by
  induction xs with
  | nil => intro s; simp [encCodes, encPred]
  | cons x xs ih =>
    intro s
    show codeVal trunc c cfg s x :: encCodes trunc c cfg (nextPred trunc c cfg s x) (xs ++ ys) = _
    rw [ih]
    rfl

theorem encCodes_length (trunc : Int → Int → Int) (c : Collab) (cfg : LpcConfig)
    (vs : List Int) : ∀ s : LpcPrediction,
    (encCodes trunc c cfg s vs).length = vs.length := by
  induction vs with
  | nil => intro s; rfl
  | cons v vs ih =>
    intro s
    show (codeVal trunc c cfg s v :: encCodes trunc c cfg (nextPred trunc c cfg s v) vs).length = _
    simp [ih]

theorem Read_cons_ok (c : Collab) (cfg : LpcConfig) (p : LpcPrediction) (r : Int)
    (rest : List Int)
    (h : GetPrediction c cfg p + r = int16OfInt (GetPrediction c cfg p + r)) :
    ReverseLpcStream.Read c cfg ⟨p, r :: rest⟩ =
      (some (GetPrediction c cfg p + r),
       ⟨AdvanceLpcState c cfg (GetPrediction c cfg p + r) r p, rest⟩) := by
  rw [Read_cons, if_pos h]

theorem readN_succ (c : Collab) (cfg : LpcConfig) (n : Nat) (d : ReverseLpcStream) :
    readN c cfg (n + 1) d =
      match (ReverseLpcStream.Read c cfg d).1 with
      | some v => (readN c cfg n (ReverseLpcStream.Read c cfg d).2).map
          (fun q => (v :: q.1, q.2))
      | none => none := rfl

theorem readN_enc (trunc : Int → Int → Int) (c : Collab) (cfg : LpcConfig)
    (vs : List Int) : ∀ (s : LpcPrediction) (rest : List Int),
    (∀ v ∈ encOuts trunc c cfg s vs, inInt16 v) →
    readN c cfg vs.length ⟨s, encCodes trunc c cfg s vs ++ rest⟩
      = some (encOuts trunc c cfg s vs, ⟨encPred trunc c cfg s vs, rest⟩) := by
  induction vs with
  | nil => intro s rest _; simp [readN, encCodes, encOuts, encPred]
  | cons v vs ih =>
    intro s rest hfit
    have hv : inInt16 (outVal trunc c cfg s v) := hfit _ (by simp [encOuts])
    have hcond : GetPrediction c cfg s + codeVal trunc c cfg s v
        = int16OfInt (GetPrediction c cfg s + codeVal trunc c cfg s v) :=
      (eq_int16OfInt_iff _).mpr hv
    have hcodes : encCodes trunc c cfg s (v :: vs) ++ rest
        = codeVal trunc c cfg s v
            :: (encCodes trunc c cfg (nextPred trunc c cfg s v) vs ++ rest) := by
      simp [encCodes]
    have hread := Read_cons_ok c cfg s (codeVal trunc c cfg s v)
      (encCodes trunc c cfg (nextPred trunc c cfg s v) vs ++ rest) hcond
    have hadv : AdvanceLpcState c cfg (GetPrediction c cfg s + codeVal trunc c cfg s v)
        (codeVal trunc c cfg s v) s = nextPred trunc c cfg s v := rfl
    rw [List.length_cons, hcodes, readN_succ, hread]
    simp only [hadv]
    rw [ih (nextPred trunc c cfg s v) rest (fun w hw => hfit w (by simp [encOuts, hw]))]
    have hout : GetPrediction c cfg s + codeVal trunc c cfg s v = outVal trunc c cfg s v := rfl
    simp [hout, encOuts, encPred]

end Lilcom

namespace Lilcom

theorem getD_set_ne (l : List Int) (m i : Nat) (a : Int) (h : m ≠ i) :
    (l.set m a).getD i 0 = l.getD i 0 := by
  rw [List.getD_eq_getElem?_getD, List.getElem?_set, if_neg h, ← List.getD_eq_getElem?_getD]

theorem getD_set_eq (l : List Int) (m : Nat) (a : Int) (h : m < l.length) :
    (l.set m a).getD m 0 = a := by
  rw [List.getD_eq_getElem?_getD, List.getElem?_set, if_pos rfl, if_pos h]
  rfl

theorem outVal_noTrunc (c : Collab) (cfg : LpcConfig) (s : LpcPrediction) (v : Int) :
    outVal noTruncation c cfg s v = v := by
  unfold outVal noTruncation
  omega

theorem encOuts_noTrunc (c : Collab) (cfg : LpcConfig) (vs : List Int) :
    ∀ s : LpcPrediction, encOuts noTruncation c cfg s vs = vs := by
  induction vs with
  | nil => intro s; rfl
  | cons v vs ih =>
    intro s
    show outVal noTruncation c cfg s v
        :: encOuts noTruncation c cfg (nextPred noTruncation c cfg s v) vs = v :: vs
    rw [outVal_noTrunc, ih]

theorem encOuts_fit (trunc : Int → Int → Int) (c : Collab) (cfg : LpcConfig)
    (Hfit : ∀ r p : Int, inInt16 (p + trunc r p)) (vs : List Int) :
    ∀ s : LpcPrediction, ∀ v ∈ encOuts trunc c cfg s vs, inInt16 v := by
  induction vs with
  | nil => intro s v hv; simp [encOuts] at hv
  | cons v vs ih =>
    intro s w hw
    have : w = outVal trunc c cfg s v
        ∨ w ∈ encOuts trunc c cfg (nextPred trunc c cfg s v) vs := by
      simpa [encOuts] using hw
    rcases this with h | h
    · rw [h]
      exact Hfit (v - GetPrediction c cfg s) (GetPrediction c cfg s)
    · exact ih _ w h

theorem encPred_coeffs_take_succ (trunc : Int → Int → Int) (c : Collab) (cfg : LpcConfig)
    (inputs : List Int) (n : Nat) :
    (encPred trunc c cfg (LpcPrediction.init cfg) (inputs.take (n + 1))).coeffs
      = if n % cfg.block_size = 0 ∧ n ≠ 0 ∧ n < inputs.length then
          c.estimate
            (copyContext cfg (encPred trunc c cfg (LpcPrediction.init cfg) (inputs.take n)).buffer)
            (encPred trunc c cfg (LpcPrediction.init cfg) (inputs.take n)).residual
        else (encPred trunc c cfg (LpcPrediction.init cfg) (inputs.take n)).coeffs := by
  by_cases h : n < inputs.length
  · have hx : inputs[n]? = some inputs[n] := List.getElem?_eq_getElem h
    rw [List.take_succ, hx]
    have hsingle : ∀ s : LpcPrediction, ∀ x : Int,
        encPred trunc c cfg s (Option.some x).toList = nextPred trunc c cfg s x :=
      fun s x => rfl
    rw [encPred_append, hsingle]
    unfold nextPred
    rw [advance_coeffs]
    have ht : (encPred trunc c cfg (LpcPrediction.init cfg) (inputs.take n)).t = n := by
      rw [encPred_t]
      show 0 + (inputs.take n).length = n
      rw [List.length_take]
      omega
    rw [ht]
    by_cases hcond : n % cfg.block_size = 0 ∧ n ≠ 0
    · rw [if_pos hcond, if_pos ⟨hcond.1, hcond.2, h⟩]
    · rw [if_neg hcond, if_neg (fun hc => hcond ⟨hc.1, hc.2.1⟩)]
  · have hle : inputs.length ≤ n := by omega
    rw [List.take_of_length_le hle, List.take_of_length_le (by omega)]
    rw [if_neg (fun hc => h hc.2.2)]

end Lilcom

namespace Lilcom

/-- Claim C6: decoder read algorithm.  On a successful read,
ReverseLpcStream::Read returns predict() + residual, where residual is the
residual decoded from the code stream, and advances the prediction context
with the pair (predict() + residual, residual): the decoder's reconstructed
residual is exactly the decoded residual, with no further truncation. -/
theorem c6_read_algorithm (c : Collab) (cfg : LpcConfig) (p : LpcPrediction)
    (dr : Int) (rest : List Int)
    (hfit : inInt16 (GetPrediction c cfg p + dr)) :
    ReverseLpcStream.Read c cfg ⟨p, dr :: rest⟩
      = (some (GetPrediction c cfg p + dr),
         ⟨AdvanceLpcState c cfg (GetPrediction c cfg p + dr) dr p, rest⟩) :=
  Read_cons_ok c cfg p dr rest ((eq_int16OfInt_iff _).mpr hfit)

/-- Witness for C6 at a concrete input: reading the residual 5 from a fresh
decoder with order 2, block size 4 succeeds, returns prediction + 5, and
advances the context with (prediction + 5, 5). -/
theorem c6_read_algorithm_witness :
    ReverseLpcStream.Read dotCollab ⟨2, 4⟩ ⟨LpcPrediction.init ⟨2, 4⟩, [5]⟩
      = (some (GetPrediction dotCollab ⟨2, 4⟩ (LpcPrediction.init ⟨2, 4⟩) + 5),
         ⟨AdvanceLpcState dotCollab ⟨2, 4⟩
            (GetPrediction dotCollab ⟨2, 4⟩ (LpcPrediction.init ⟨2, 4⟩) + 5) 5
            (LpcPrediction.init ⟨2, 4⟩), []⟩) :=
  c6_read_algorithm dotCollab ⟨2, 4⟩ (LpcPrediction.init ⟨2, 4⟩) 5 [] (by decide)

/-- Claim C7: encoder write algorithm.  LpcStream::Write computes
residual = value - predict() in wide signed arithmetic, commits it through
the residual coder with the prediction as side information, advances the
prediction context with the coder's committed
(reconstructed_value, reconstructed_residual) pair — not with the original
(value, residual) — and returns reconstructed_value. -/
theorem c7_write_algorithm (trunc : Int → Int → Int) (c : Collab) (cfg : LpcConfig)
    (st : LpcStream) (value : Int) :
    LpcStream.Write trunc c cfg st value
      = ({ pred := AdvanceLpcState c cfg
             (GetPrediction c cfg st.pred
                + trunc (value - GetPrediction c cfg st.pred) (GetPrediction c cfg st.pred))
             (trunc (value - GetPrediction c cfg st.pred) (GetPrediction c cfg st.pred))
             st.pred
           code := st.code
             ++ [trunc (value - GetPrediction c cfg st.pred) (GetPrediction c cfg st.pred)] },
         GetPrediction c cfg st.pred
           + trunc (value - GetPrediction c cfg st.pred) (GetPrediction c cfg st.pred)) := rfl

/-- Claim C8: the debug assertion in AdvanceLpcState checks the identity
residual = value - predict() only at early-block positions
(t mod block_size at most 2) and is skipped at all later positions; and
the argument pairs with which LpcStream::Write and ReverseLpcStream::Read
invoke AdvanceLpcState always satisfy the identity, so the assertion never
fails.  The Write part relies on the modelled coder contract that the
committed value is prediction + committed residual. -/
theorem c8_assertion_scope_and_validity (c : Collab) (cfg : LpcConfig)
    (s : LpcPrediction) (v r : Int) (trunc : Int → Int → Int) (value dr : Int) :
    (2 < s.t % cfg.block_size → advanceAssertOK c cfg s v r)
    ∧ (s.t % cfg.block_size ≤ 2 →
        (advanceAssertOK c cfg s v r ↔ r = v - GetPrediction c cfg s))
    ∧ advanceAssertOK c cfg s
        (writeLimited trunc (value - GetPrediction c cfg s) (GetPrediction c cfg s)).1
        (writeLimited trunc (value - GetPrediction c cfg s) (GetPrediction c cfg s)).2
    ∧ advanceAssertOK c cfg s (GetPrediction c cfg s + dr) dr := by
  refine ⟨fun h => Or.inl h, fun hle => ?_, Or.inr ?_, Or.inr ?_⟩
  · constructor
    · intro h
      rcases h with h | h
      · omega
      · exact h
    · exact fun h => Or.inr h
  · show trunc (value - GetPrediction c cfg s) (GetPrediction c cfg s)
        = GetPrediction c cfg s + trunc (value - GetPrediction c cfg s) (GetPrediction c cfg s)
            - GetPrediction c cfg s
    omega
  · omega

/-- Witness for C8 at a concrete input: a fresh context with order 1 and
block size 4, assertion arguments (1, 1), coder noTruncation, value 5 and
decoded residual 3. -/
theorem c8_assertion_scope_and_validity_witness :
    (2 < (LpcPrediction.init ⟨1, 4⟩).t % (4 : Nat) →
        advanceAssertOK dotCollab ⟨1, 4⟩ (LpcPrediction.init ⟨1, 4⟩) 1 1)
    ∧ ((LpcPrediction.init ⟨1, 4⟩).t % (4 : Nat) ≤ 2 →
        (advanceAssertOK dotCollab ⟨1, 4⟩ (LpcPrediction.init ⟨1, 4⟩) 1 1 ↔
          1 = 1 - GetPrediction dotCollab ⟨1, 4⟩ (LpcPrediction.init ⟨1, 4⟩)))
    ∧ advanceAssertOK dotCollab ⟨1, 4⟩ (LpcPrediction.init ⟨1, 4⟩)
        (writeLimited noTruncation
          (5 - GetPrediction dotCollab ⟨1, 4⟩ (LpcPrediction.init ⟨1, 4⟩))
          (GetPrediction dotCollab ⟨1, 4⟩ (LpcPrediction.init ⟨1, 4⟩))).1
        (writeLimited noTruncation
          (5 - GetPrediction dotCollab ⟨1, 4⟩ (LpcPrediction.init ⟨1, 4⟩))
          (GetPrediction dotCollab ⟨1, 4⟩ (LpcPrediction.init ⟨1, 4⟩))).2
    ∧ advanceAssertOK dotCollab ⟨1, 4⟩ (LpcPrediction.init ⟨1, 4⟩)
        (GetPrediction dotCollab ⟨1, 4⟩ (LpcPrediction.init ⟨1, 4⟩) + 3) 3 :=
  c8_assertion_scope_and_validity dotCollab ⟨1, 4⟩ (LpcPrediction.init ⟨1, 4⟩) 1 1
    noTruncation 5 3

/-- Claim C9: atomicity of decoder failure.  Whenever
ReverseLpcStream::Read fails — end-of-stream or out-of-range candidate —
the prediction context (time counter, history buffer, residual block and
coefficient vector) is left unchanged, and no value is produced for the
caller. -/
theorem c9_failure_preserves_context (c : Collab) (cfg : LpcConfig)
    (d : ReverseLpcStream)
    (h : (ReverseLpcStream.Read c cfg d).1 = none) :
    (ReverseLpcStream.Read c cfg d).2.pred = d.pred := by
  obtain ⟨p, code⟩ := d
  cases code with
  | nil => rw [Read_nil]
  | cons r rest =>
    rw [Read_cons] at h ⊢
    by_cases hcond : GetPrediction c cfg p + r = int16OfInt (GetPrediction c cfg p + r)
    · rw [if_pos hcond] at h
      simp at h
    · rw [if_neg hcond]

/-- Witness for C9 at a concrete input: a read that fails on the
out-of-range code 100000 leaves the prediction context of a fresh decoder
with order 2 and block size 4 unchanged. -/
theorem c9_failure_preserves_context_witness :
    (ReverseLpcStream.Read dotCollab ⟨2, 4⟩
        ⟨LpcPrediction.init ⟨2, 4⟩, [100000]⟩).2.pred = LpcPrediction.init ⟨2, 4⟩ :=
  c9_failure_preserves_context dotCollab ⟨2, 4⟩
    ⟨LpcPrediction.init ⟨2, 4⟩, [100000]⟩ (by decide)

/-- Claim C10: initial state after construction.  A freshly constructed
LpcPrediction has time 0 and all lpc_order + block_size history slots equal
to zero, and the first prediction is computed from the all-zero coefficient
vector over the all-zero left context; encoder and decoder both start from
this same LpcPrediction.init state, so the first block's predictions agree
on the two sides. -/
theorem c10_initial_state (c : Collab) (cfg : LpcConfig) :
    (LpcPrediction.init cfg).t = 0
    ∧ (LpcPrediction.init cfg).buffer.length = cfg.lpc_order + cfg.block_size
    ∧ (∀ i : Nat, (LpcPrediction.init cfg).buffer.getD i 0 = 0)
    ∧ GetPrediction c cfg (LpcPrediction.init cfg)
        = c.predict (List.replicate cfg.lpc_order 0) (List.replicate cfg.lpc_order 0) := by
  refine ⟨rfl, by simp [LpcPrediction.init], ?_, ?_⟩
  · intro i
    show (List.replicate (cfg.lpc_order + cfg.block_size) (0 : Int)).getD i 0 = 0
    rw [List.getD_eq_getElem?_getD, List.getElem?_replicate]
    split <;> rfl
  · show c.predict (List.replicate cfg.lpc_order 0)
        (((List.replicate (cfg.lpc_order + cfg.block_size) (0 : Int)).drop
            (0 % cfg.block_size)).take cfg.lpc_order) = _
    rw [Nat.zero_mod, List.drop_zero, List.take_replicate,
      Nat.min_eq_left (Nat.le_add_right _ _)]

end Lilcom

namespace Lilcom

/-- Claim C5: context advance at a block boundary.  When AdvanceLpcState is
called with time mod block_size = 0 and time nonzero, it copies the
trailing lpc_order samples of the just-completed block into the left
context slots, hands the post-copy context buffer and the residual block to
the estimator to replace the coefficient vector, stores the new
(value, residual) pair at slot time mod block_size (= slot 0) leaving the
other block slots unchanged, and increments time; at every other time it
only stores at slot time mod block_size and increments time. -/
theorem c5_boundary_advance (c : Collab) (cfg : LpcConfig) (s : LpcPrediction)
    (v r : Int)
    (hbs : 0 < cfg.block_size)
    (hlen : s.buffer.length = cfg.lpc_order + cfg.block_size) :
    (s.t % cfg.block_size = 0 → s.t ≠ 0 →
      (AdvanceLpcState c cfg v r s).t = s.t + 1
      ∧ (AdvanceLpcState c cfg v r s).coeffs
          = c.estimate (copyContext cfg s.buffer) s.residual
      ∧ (∀ j, j < cfg.lpc_order →
          (AdvanceLpcState c cfg v r s).buffer.getD j 0
            = s.buffer.getD (cfg.block_size + j) 0)
      ∧ (AdvanceLpcState c cfg v r s).buffer.getD cfg.lpc_order 0 = v
      ∧ (∀ i, cfg.lpc_order < i → i < cfg.lpc_order + cfg.block_size →
          (AdvanceLpcState c cfg v r s).buffer.getD i 0 = s.buffer.getD i 0)
      ∧ (AdvanceLpcState c cfg v r s).residual = s.residual.set 0 r)
    ∧ (¬(s.t % cfg.block_size = 0 ∧ s.t ≠ 0) →
        AdvanceLpcState c cfg v r s
          = ⟨s.t + 1, s.buffer.set (cfg.lpc_order + s.t % cfg.block_size) v,
             s.residual.set (s.t % cfg.block_size) r, s.coeffs⟩) := by
  constructor
  · intro ht ht0
    have hcond : s.t % cfg.block_size = 0 ∧ s.t ≠ 0 := ⟨ht, ht0⟩
    have hadv : AdvanceLpcState c cfg v r s
        = ⟨s.t + 1,
           (copyContext cfg s.buffer).set (cfg.lpc_order + s.t % cfg.block_size) v,
           s.residual.set (s.t % cfg.block_size) r,
           c.estimate (copyContext cfg s.buffer) s.residual⟩ := by
      simp only [AdvanceLpcState]
      rw [if_pos hcond]
    rw [hadv, ht]
    simp only [Nat.add_zero]
    refine ⟨trivial, trivial, ?_, ?_, ?_, trivial⟩
    · intro j hj
      show ((copyContext cfg s.buffer).set cfg.lpc_order v).getD j 0 = _
      rw [getD_set_ne _ _ _ _ (by omega),
        copyContext_getD_lt cfg s.buffer (by rw [hlen]; omega) j hj]
    · show ((copyContext cfg s.buffer).set cfg.lpc_order v).getD cfg.lpc_order 0 = v
      exact getD_set_eq _ _ _ (by rw [copyContext_length, hlen]; omega)
    · intro i h1 h2
      show ((copyContext cfg s.buffer).set cfg.lpc_order v).getD i 0 = _
      rw [getD_set_ne _ _ _ _ (by omega),
        copyContext_getD_ge cfg s.buffer (by rw [hlen]; omega) i (by omega)]
  · intro hcond
    simp only [AdvanceLpcState]
    rw [if_neg hcond]

/-- Witness for C5 at a concrete input: a boundary state with order 1,
block size 2, t = 2, buffer [5, 6, 7], residual block [9, 11] and
coefficients [3], advanced with value 13 and residual 4. -/
theorem c5_boundary_advance_witness :
    ((2 : Nat) % 2 = 0 → (2 : Nat) ≠ 0 →
      (AdvanceLpcState dotCollab ⟨1, 2⟩ 13 4 ⟨2, [5, 6, 7], [9, 11], [3]⟩).t = 2 + 1
      ∧ (AdvanceLpcState dotCollab ⟨1, 2⟩ 13 4 ⟨2, [5, 6, 7], [9, 11], [3]⟩).coeffs
          = dotCollab.estimate (copyContext ⟨1, 2⟩ [5, 6, 7]) [9, 11]
      ∧ (∀ j, j < 1 →
          (AdvanceLpcState dotCollab ⟨1, 2⟩ 13 4
              ⟨2, [5, 6, 7], [9, 11], [3]⟩).buffer.getD j 0
            = ([5, 6, 7] : List Int).getD (2 + j) 0)
      ∧ (AdvanceLpcState dotCollab ⟨1, 2⟩ 13 4
            ⟨2, [5, 6, 7], [9, 11], [3]⟩).buffer.getD 1 0 = 13
      ∧ (∀ i, 1 < i → i < 1 + 2 →
          (AdvanceLpcState dotCollab ⟨1, 2⟩ 13 4
              ⟨2, [5, 6, 7], [9, 11], [3]⟩).buffer.getD i 0
            = ([5, 6, 7] : List Int).getD i 0)
      ∧ (AdvanceLpcState dotCollab ⟨1, 2⟩ 13 4 ⟨2, [5, 6, 7], [9, 11], [3]⟩).residual
          = ([9, 11] : List Int).set 0 4)
    ∧ (¬((2 : Nat) % 2 = 0 ∧ (2 : Nat) ≠ 0) →
        AdvanceLpcState dotCollab ⟨1, 2⟩ 13 4 ⟨2, [5, 6, 7], [9, 11], [3]⟩
          = ⟨2 + 1, ([5, 6, 7] : List Int).set (1 + 2 % 2) 13,
             ([9, 11] : List Int).set (2 % 2) 4, [3]⟩) :=
  c5_boundary_advance dotCollab ⟨1, 2⟩ ⟨2, [5, 6, 7], [9, 11], [3]⟩ 13 4
    (by decide) (by decide)

end Lilcom

namespace Lilcom

/-- Counterexample to claim C3 as stated: the claim requires a corrupt code
(out-of-range candidate) to yield a result distinguishable from the clean
end-of-stream result, but ReverseLpcStream::Read returns the same
caller-visible outcome (bool false, output value untouched — here the
first component none) in both cases.  With order 2 and block size 4 on a
fresh decoder, the code [100000] produces candidate 0 + 100000 outside the
int16 range, yet the result equals the result of reading the exhausted
code []. -/
theorem c3_counterexample :
    ¬ inInt16 (GetPrediction dotCollab ⟨2, 4⟩ (LpcPrediction.init ⟨2, 4⟩) + 100000)
    ∧ (⟨LpcPrediction.init ⟨2, 4⟩, [100000]⟩ : ReverseLpcStream).code ≠ []
    ∧ (ReverseLpcStream.Read dotCollab ⟨2, 4⟩
        ⟨LpcPrediction.init ⟨2, 4⟩, [100000]⟩).1
      = (ReverseLpcStream.Read dotCollab ⟨2, 4⟩
          ⟨LpcPrediction.init ⟨2, 4⟩, []⟩).1 := by
  decide

/-- Claim C3 as amended: a code producing an out-of-range candidate makes
ReverseLpcStream::Read fail without writing a value and without advancing
the prediction context, exactly like end-of-stream does — the two failures
yield the same caller-visible result (false) and differ only in that the
corrupt read has already consumed the offending residual from the code. -/
theorem c3_amended (c : Collab) (cfg : LpcConfig) (p : LpcPrediction) (dr : Int)
    (rest : List Int)
    (hbad : ¬ inInt16 (GetPrediction c cfg p + dr)) :
    ReverseLpcStream.Read c cfg ⟨p, dr :: rest⟩ = (none, ⟨p, rest⟩)
    ∧ (ReverseLpcStream.Read c cfg ⟨p, ([] : List Int)⟩).1 = none := by
  constructor
  · rw [Read_cons, if_neg (fun hceq => hbad ((eq_int16OfInt_iff _).mp hceq))]
  · rfl

/-- Witness for the amended C3 at a concrete input: the corrupt code
[100000] on a fresh decoder with order 2 and block size 4. -/
theorem c3_amended_witness :
    ReverseLpcStream.Read dotCollab ⟨2, 4⟩ ⟨LpcPrediction.init ⟨2, 4⟩, [100000]⟩
      = (none, ⟨LpcPrediction.init ⟨2, 4⟩, []⟩)
    ∧ (ReverseLpcStream.Read dotCollab ⟨2, 4⟩
        ⟨LpcPrediction.init ⟨2, 4⟩, ([] : List Int)⟩).1 = none :=
  c3_amended dotCollab ⟨2, 4⟩ (LpcPrediction.init ⟨2, 4⟩) 100000 [] (by decide)

/-- Counterexample to claim C4 as stated: the claim requires the vector
estimated from block k to be used by predict() for every sample of block
k+1, but the prediction for the first sample of a block is computed before
AdvanceLpcState performs the boundary estimate.  With order 1, block size
2, the constant estimator returning [7] and lossless coding of [1, 2],
the state in force at sample 2 — the first sample of block 1 — still
carries the initial coefficient vector [0], not the vector [7] estimated
from block 0's data. -/
theorem c4_counterexample :
    (writeAll noTruncation constCollab ⟨1, 2⟩ ⟨LpcPrediction.init ⟨1, 2⟩, []⟩
        (List.take 2 [1, 2, 3])).pred.t = 2
    ∧ (writeAll noTruncation constCollab ⟨1, 2⟩ ⟨LpcPrediction.init ⟨1, 2⟩, []⟩
        (List.take 2 [1, 2, 3])).pred.coeffs
      ≠ constCollab.estimate
          (copyContext ⟨1, 2⟩
            (writeAll noTruncation constCollab ⟨1, 2⟩ ⟨LpcPrediction.init ⟨1, 2⟩, []⟩
              (List.take 2 [1, 2, 3])).pred.buffer)
          (writeAll noTruncation constCollab ⟨1, 2⟩ ⟨LpcPrediction.init ⟨1, 2⟩, []⟩
            (List.take 2 [1, 2, 3])).pred.residual := by
  decide

/-- Claim C4 as amended: the coefficient vector of the prediction state
changes exactly when a sample is written at a block boundary (index n with
n mod block_size = 0 and n nonzero), where it becomes the estimate of the
just-completed block's buffer (after the context copy) and residuals;
consequently the vector estimated from block k governs predict() for every
sample of block k+1 except its first — which still uses the previous
vector — and also for the first sample of block k+2. -/
theorem c4_amended (trunc : Int → Int → Int) (c : Collab) (cfg : LpcConfig)
    (inputs : List Int) (n : Nat) :
    (writeAll trunc c cfg ⟨LpcPrediction.init cfg, []⟩ (inputs.take (n + 1))).pred.coeffs
      = if n % cfg.block_size = 0 ∧ n ≠ 0 ∧ n < inputs.length then
          c.estimate
            (copyContext cfg
              (writeAll trunc c cfg ⟨LpcPrediction.init cfg, []⟩ (inputs.take n)).pred.buffer)
            (writeAll trunc c cfg ⟨LpcPrediction.init cfg, []⟩ (inputs.take n)).pred.residual
        else (writeAll trunc c cfg ⟨LpcPrediction.init cfg, []⟩ (inputs.take n)).pred.coeffs := by
  rw [writeAll_eq trunc c cfg (inputs.take (n + 1)) ⟨LpcPrediction.init cfg, []⟩,
    writeAll_eq trunc c cfg (inputs.take n) ⟨LpcPrediction.init cfg, []⟩]
  exact encPred_coeffs_take_succ trunc c cfg inputs n

end Lilcom

namespace Lilcom

/-- Claim C1: round trip under a lossless configuration.  For every finite
sequence of 16-bit samples, writing the sequence through LpcStream::Write
with the never-truncating residual coder and then reading the resulting
code through ReverseLpcStream::Read reproduces exactly the same sequence,
followed by clean end-of-stream (a further read fails and leaves the
decoder unchanged). -/
theorem c1_roundtrip_lossless (c : Collab) (cfg : LpcConfig) (seq : List Int)
    (hseq : ∀ v ∈ seq, inInt16 v) :
    ∃ d : ReverseLpcStream,
      readN c cfg seq.length
          ⟨LpcPrediction.init cfg,
           (writeAll noTruncation c cfg ⟨LpcPrediction.init cfg, []⟩ seq).code⟩
        = some (seq, d)
      ∧ ReverseLpcStream.Read c cfg d = (none, d) := by
  have hcode : (writeAll noTruncation c cfg ⟨LpcPrediction.init cfg, []⟩ seq).code
      = encCodes noTruncation c cfg (LpcPrediction.init cfg) seq := by
    rw [writeAll_eq]
    simp
  have hfit : ∀ v ∈ encOuts noTruncation c cfg (LpcPrediction.init cfg) seq, inInt16 v := by
    rw [encOuts_noTrunc]
    exact hseq
  have h := readN_enc noTruncation c cfg seq (LpcPrediction.init cfg) [] hfit
  rw [List.append_nil, encOuts_noTrunc] at h
  exact ⟨⟨encPred noTruncation c cfg (LpcPrediction.init cfg) seq, []⟩,
    by rw [hcode]; exact h, Read_nil c cfg _⟩

/-- Witness for C1 at the spec's concrete scenario: order 2, block size 4,
lossless coder, input [10, 20, 15, 5, 30, 25, 10, 0]. -/
theorem c1_roundtrip_lossless_witness :
    ∃ d : ReverseLpcStream,
      readN dotCollab ⟨2, 4⟩ ([10, 20, 15, 5, 30, 25, 10, 0] : List Int).length
          ⟨LpcPrediction.init ⟨2, 4⟩,
           (writeAll noTruncation dotCollab ⟨2, 4⟩ ⟨LpcPrediction.init ⟨2, 4⟩, []⟩
              [10, 20, 15, 5, 30, 25, 10, 0]).code⟩
        = some ([10, 20, 15, 5, 30, 25, 10, 0], d)
      ∧ ReverseLpcStream.Read dotCollab ⟨2, 4⟩ d = (none, d) :=
  c1_roundtrip_lossless dotCollab ⟨2, 4⟩ [10, 20, 15, 5, 30, 25, 10, 0] (by decide)

/-- Claim C2: lockstep invariant.  For every configuration, collaborator
pair, residual coder satisfying the native-width contract (every committed
value prediction + trunc residual prediction lies in the int16 range), and
every input sequence: after the encoder has written the whole sequence,
reading any n of its samples back from the produced code succeeds and
leaves the decoder's prediction context equal — as a whole structure: same
time counter, history buffer, residual block and coefficient vector — to
the encoder's prediction context after writing the first n samples, with
exactly the first n committed residuals consumed; the values read are the
encoder's reconstructed values for those samples. -/
theorem c2_lockstep (trunc : Int → Int → Int) (c : Collab) (cfg : LpcConfig)
    (seq : List Int) (n : Nat)
    (Hfit : ∀ r p : Int, inInt16 (p + trunc r p)) (hn : n ≤ seq.length) :
    readN c cfg n
        ⟨LpcPrediction.init cfg,
         (writeAll trunc c cfg ⟨LpcPrediction.init cfg, []⟩ seq).code⟩
      = some (writeOutputs trunc c cfg ⟨LpcPrediction.init cfg, []⟩ (seq.take n),
              ⟨(writeAll trunc c cfg ⟨LpcPrediction.init cfg, []⟩ (seq.take n)).pred,
               ((writeAll trunc c cfg ⟨LpcPrediction.init cfg, []⟩ seq).code).drop n⟩) := by
  have hcode : (writeAll trunc c cfg ⟨LpcPrediction.init cfg, []⟩ seq).code
      = encCodes trunc c cfg (LpcPrediction.init cfg) seq := by
    rw [writeAll_eq]
    simp
  have hcodeT : (writeAll trunc c cfg ⟨LpcPrediction.init cfg, []⟩ (seq.take n)).pred
      = encPred trunc c cfg (LpcPrediction.init cfg) (seq.take n) := by
    rw [writeAll_eq]
  have houts : writeOutputs trunc c cfg ⟨LpcPrediction.init cfg, []⟩ (seq.take n)
      = encOuts trunc c cfg (LpcPrediction.init cfg) (seq.take n) :=
    writeOutputs_eq trunc c cfg (seq.take n) ⟨LpcPrediction.init cfg, []⟩
  have hlenT : (seq.take n).length = n := by
    rw [List.length_take]
    omega
  have hsplit : encCodes trunc c cfg (LpcPrediction.init cfg) seq
      = encCodes trunc c cfg (LpcPrediction.init cfg) (seq.take n)
        ++ encCodes trunc c cfg
            (encPred trunc c cfg (LpcPrediction.init cfg) (seq.take n)) (seq.drop n) := by
    conv_lhs => rw [← List.take_append_drop n seq]
    rw [encCodes_append]
  have hdrop : (encCodes trunc c cfg (LpcPrediction.init cfg) seq).drop n
      = encCodes trunc c cfg
          (encPred trunc c cfg (LpcPrediction.init cfg) (seq.take n)) (seq.drop n) := by
    rw [hsplit]
    have hl : (encCodes trunc c cfg (LpcPrediction.init cfg) (seq.take n)).length = n := by
      rw [encCodes_length]
      exact hlenT
    rw [List.drop_left' hl]
  have hr := readN_enc trunc c cfg (seq.take n) (LpcPrediction.init cfg)
      (encCodes trunc c cfg
        (encPred trunc c cfg (LpcPrediction.init cfg) (seq.take n)) (seq.drop n))
      (encOuts_fit trunc c cfg Hfit (seq.take n) (LpcPrediction.init cfg))
  rw [hlenT] at hr
  rw [hcode, hcodeT, houts, hdrop, hsplit]
  exact hr

/-- Witness for C2 at a concrete input: order 1, block size 2, the clamping
coder (which satisfies the native-width contract and truncates the second
sample 100000), input [1, 100000, 3], reading back n = 2 samples. -/
theorem c2_lockstep_witness :
    readN dotCollab ⟨1, 2⟩ 2
        ⟨LpcPrediction.init ⟨1, 2⟩,
         (writeAll clampCoder dotCollab ⟨1, 2⟩ ⟨LpcPrediction.init ⟨1, 2⟩, []⟩
            [1, 100000, 3]).code⟩
      = some (writeOutputs clampCoder dotCollab ⟨1, 2⟩ ⟨LpcPrediction.init ⟨1, 2⟩, []⟩
                (List.take 2 [1, 100000, 3]),
              ⟨(writeAll clampCoder dotCollab ⟨1, 2⟩ ⟨LpcPrediction.init ⟨1, 2⟩, []⟩
                  (List.take 2 [1, 100000, 3])).pred,
               ((writeAll clampCoder dotCollab ⟨1, 2⟩ ⟨LpcPrediction.init ⟨1, 2⟩, []⟩
                  [1, 100000, 3]).code).drop 2⟩) :=
  c2_lockstep clampCoder dotCollab ⟨1, 2⟩ [1, 100000, 3] 2
    (fun r p => by simp only [inInt16, clampCoder]; split_ifs <;> omega) (by decide)

end Lilcom
